import Mathlib

/-!
Verification of the prompt-learning CLIP classifier in `src/clip/clip.py`
against its natural-language specification.

The Python source is shallowly embedded: tensors are nested lists over `ℚ`,
fallible operations return `Except`/`Option`, and the external collaborators
(the byte-pair tokenizer's `encode`, the frozen encoders) are parameters.
Each definition's doc comment cites the source lines it embeds.
-/

namespace ClipSpec

/-! ## Tokenization (`tokenize`, clip.py lines 293-330) -/

/-- Errors raised by `tokenize`.  `lengthError` embeds the
`RuntimeError(f"Input {texts[i]} is too long for context length {context_length}")`
raised at line 327: it carries the offending input string and the context length.
`indexError` embeds the Python `IndexError` that `tokens[-1] = eot_token`
(line 325) would raise when the truncated token list is empty
(only possible for `context_length = 0`). -/
inductive TokenizeError where
  | lengthError (text : String) (contextLength : Nat)
  | indexError
deriving Repr, DecidableEq

/-- `_tokenizer.encoder["<|startoftext|>"]` (line 316): index of the
start-of-text token in the BPE vocabulary. -/
def sotToken : Nat := 49406

/-- `_tokenizer.encoder["<|endoftext|>"]` (line 317). -/
def eotToken : Nat := 49407

/-- Line 318: `[sot_token] + _tokenizer.encode(text) + [eot_token]`, for the
encoded content `enc` of one input string. -/
def wrapTokens (enc : List Nat) : List Nat :=
  sotToken :: enc ++ [eotToken]

/-- One row of the zero-initialised `result` tensor (line 319) after the
assignment `result[i, :len(tokens)] = torch.tensor(tokens)` (line 328):
the tokens followed by zero padding up to `ctx` positions. -/
def padRow (ctx : Nat) (tokens : List Nat) : List Nat :=
  tokens ++ List.replicate (ctx - tokens.length) 0

/-- Line 325: `tokens[-1] = eot_token` on a nonempty list replaces the last
element. -/
def setLast (l : List Nat) (x : Nat) : List Nat :=
  l.dropLast ++ [x]

/-- The body of the per-input loop of `tokenize` (lines 321-328) for one input
string `text` whose BPE encoding is `enc`. -/
def tokenizeRow (text : String) (enc : List Nat) (ctx : Nat) (truncate : Bool) :
    Except TokenizeError (List Nat) :=
  let tokens := wrapTokens enc
  if ctx < tokens.length then
    if truncate then
      let t := tokens.take ctx
      if t.isEmpty then .error .indexError
      else .ok (padRow ctx (setLast t eotToken))
    else .error (.lengthError text ctx)
  else .ok (padRow ctx tokens)

/-- `tokenize(texts, context_length, truncate)` (lines 293-330) for a list of
input strings, with the external BPE tokenizer's `encode` as a parameter.
The Python loop over `all_tokens` raises on the first offending input, which
the recursion over `Except` reproduces. -/
def tokenize (encode : String → List Nat) (texts : List String) (ctx : Nat)
    (truncate : Bool) : Except TokenizeError (List (List Nat)) :=
  match texts with
  | [] => .ok []
  | t :: ts =>
    match tokenizeRow t (encode t) ctx truncate with
    | .error e => .error e
    | .ok row =>
      match tokenize encode ts ctx truncate with
      | .error e => .error e
      | .ok rest => .ok (row :: rest)

lemma getD_replicate_zero (n j : Nat) : (List.replicate n (0 : Nat)).getD j 0 = 0 := by
  rcases lt_or_le j n with h | h
  · rw [List.getD_eq_getElem _ _ (by simpa using h)]
    simp
  · exact List.getD_eq_default _ _ (by simpa using h)

lemma wrapTokens_length (enc : List Nat) :
    (wrapTokens enc).length = enc.length + 2 := by
  simp [wrapTokens]

/-- Claim C6: for an input whose wrapped token sequence fits in the context
length, `tokenize` returns a row of exactly `ctx` integers: the first entry is
the start token, the end token occurs exactly once (immediately after the
encoded content), and all trailing positions are zero.  The hypothesis
`eotToken ∉ encode text` reflects that the BPE `encode` maps input text to
ordinary vocabulary tokens, never the reserved end-of-text token. -/
theorem tokenize_fit_row_structure (encode : String → List Nat) (text : String)
    (ctx : Nat) (truncate : Bool)
    (hfit : (wrapTokens (encode text)).length ≤ ctx)
    (hno : eotToken ∉ encode text) :
    tokenize encode [text] ctx truncate =
      .ok [padRow ctx (wrapTokens (encode text))] ∧
    (padRow ctx (wrapTokens (encode text))).length = ctx ∧
    (padRow ctx (wrapTokens (encode text))).headD 0 = sotToken ∧
    (padRow ctx (wrapTokens (encode text))).count eotToken = 1 ∧
    (padRow ctx (wrapTokens (encode text))).getD ((encode text).length + 1) 0
      = eotToken ∧
    ∀ j, (encode text).length + 2 ≤ j →
      (padRow ctx (wrapTokens (encode text))).getD j 0 = 0 := by
  have hne : ¬ ctx < (wrapTokens (encode text)).length := not_lt.mpr hfit
  refine ⟨?_, ?_, ?_, ?_, ?_, ?_⟩
  · simp [tokenize, tokenizeRow, hne]
  · have := wrapTokens_length (encode text)
    simp only [padRow, List.length_append, List.length_replicate]
    omega
  · simp [padRow, wrapTokens]
  · have h1 : List.count 49407 (encode text) = 0 :=
      List.count_eq_zero.mpr (by simpa [eotToken] using hno)
    simp [padRow, wrapTokens, List.count_append, List.count_cons,
      List.count_replicate, h1, sotToken, eotToken]
  · rw [padRow, List.getD_append _ _ _ _ (by rw [wrapTokens_length]; omega),
      List.getD_eq_getElem _ _ (by rw [wrapTokens_length]; omega)]
    simp [wrapTokens]
  · intro j hj
    rw [padRow,
      List.getD_append_right _ _ _ _ (by rw [wrapTokens_length]; omega)]
    exact getD_replicate_zero _ _

/-- Witness for C6 at a concrete input. -/
theorem tokenize_fit_row_structure_witness :
    tokenize (fun _ => [5, 6]) ["hi"] 6 false =
      .ok [padRow 6 (wrapTokens [5, 6])] ∧
    (padRow 6 (wrapTokens [5, 6])).length = 6 ∧
    (padRow 6 (wrapTokens [5, 6])).headD 0 = sotToken ∧
    (padRow 6 (wrapTokens [5, 6])).count eotToken = 1 ∧
    (padRow 6 (wrapTokens [5, 6])).getD ([5, 6].length + 1) 0 = eotToken ∧
    ∀ j, [5, 6].length + 2 ≤ j → (padRow 6 (wrapTokens [5, 6])).getD j 0 = 0 :=
  tokenize_fit_row_structure (fun _ => [5, 6]) "hi" 6 false
    (by decide) (by decide)

/-- Claim C7: for an input whose wrapped token sequence exceeds the context
length, `tokenize` with `truncate = true` returns a row of length exactly
`ctx` whose final entry is the end-of-text token. -/
theorem tokenize_truncate_row (encode : String → List Nat) (text : String)
    (ctx : Nat) (hpos : 0 < ctx)
    (hlong : ctx < (wrapTokens (encode text)).length) :
    tokenize encode [text] ctx true =
      .ok [padRow ctx (setLast ((wrapTokens (encode text)).take ctx) eotToken)] ∧
    (padRow ctx (setLast ((wrapTokens (encode text)).take ctx) eotToken)).length
      = ctx ∧
    (padRow ctx (setLast ((wrapTokens (encode text)).take ctx) eotToken)).getD
      (ctx - 1) 0 = eotToken := by
  have htake : ((wrapTokens (encode text)).take ctx).length = ctx := by
    rw [List.length_take]
    omega
  have hne : ¬ ((wrapTokens (encode text)).take ctx).isEmpty := by
    rw [List.isEmpty_iff, ← List.length_eq_zero, htake]
    omega
  have hsetlen :
      (setLast ((wrapTokens (encode text)).take ctx) eotToken).length = ctx := by
    rw [setLast, List.length_append, List.length_dropLast, htake]
    simp only [List.length_singleton]
    omega
  refine ⟨?_, ?_, ?_⟩
  · simp [tokenize, tokenizeRow, hlong, hne]
  · simp only [padRow, List.length_append, List.length_replicate, hsetlen]
    omega
  · rw [padRow, List.getD_append _ _ _ _ (by omega), setLast,
      List.getD_append_right _ _ _ _
        (by rw [List.length_dropLast, htake]),
      List.length_dropLast, htake]
    have : ctx - 1 - (ctx - 1) = 0 := by omega
    rw [this]
    simp

/-- Witness for C7 at a concrete input. -/
theorem tokenize_truncate_row_witness :
    tokenize (fun _ => List.replicate 10 7) ["long"] 5 true =
      .ok [padRow 5 (setLast ((wrapTokens (List.replicate 10 7)).take 5)
        eotToken)] ∧
    (padRow 5 (setLast ((wrapTokens (List.replicate 10 7)).take 5)
      eotToken)).length = 5 ∧
    (padRow 5 (setLast ((wrapTokens (List.replicate 10 7)).take 5)
      eotToken)).getD (5 - 1) 0 = eotToken :=
  tokenize_truncate_row (fun _ => List.replicate 10 7) "long" 5
    (by decide) (by decide)

/-- Claim C8: for a batch in which every input before position `i` fits and
the input at position `i` has a wrapped token sequence exceeding the context
length, `tokenize` with `truncate = false` fails with a `lengthError` naming
exactly the offending input string, and never silently truncates. -/
theorem tokenize_overflow_raises_lengthError (encode : String → List Nat)
    (pre post : List String) (text : String) (ctx : Nat)
    (hpre : ∀ s ∈ pre, (wrapTokens (encode s)).length ≤ ctx)
    (hlong : ctx < (wrapTokens (encode text)).length) :
    tokenize encode (pre ++ text :: post) ctx false =
      .error (.lengthError text ctx) := by
  induction pre with
  | nil => simp [tokenize, tokenizeRow, hlong]
  | cons s pre ih =>
      have hs : ¬ ctx < (wrapTokens (encode s)).length :=
        not_lt.mpr (hpre s (List.mem_cons_self s pre))
      have ih' := ih (fun x hx => hpre x (List.mem_cons_of_mem s hx))
      simp only [List.cons_append, tokenize]
      simp [tokenizeRow, hs, ih']

/-- Witness for C8 at a concrete input. -/
theorem tokenize_overflow_raises_lengthError_witness :
    tokenize (fun s => List.replicate s.length 7) (["a"] ++ "0123456789" :: ["b"])
      5 false = .error (.lengthError "0123456789" 5) :=
  tokenize_overflow_raises_lengthError (fun s => List.replicate s.length 7)
    ["a"] ["b"] "0123456789" 5 (by decide) (by decide)

/-! ## Prompt selector (`CLIP.forward`, clip.py lines 382-387)

Tensor entries are modelled over an arbitrary linearly ordered commutative
ring `α`: the exact-arithmetic idealisation of the floating-point values in
the source.  Claims are proved for every such `α`; concrete witnesses
instantiate `α := ℤ`. -/

section Tensors

variable {α : Type} [LinearOrderedCommRing α]

/-- Dot product of two equal-length vectors: one entry of a matrix product. -/
def dotQ (v w : List α) : α := (List.zipWith (· * ·) v w).sum

/-- Line 383: `probability = image_features @ torch.cat(self.entity_keys, dim=0).t()`,
restricted to one image row — one similarity score per entity-key row. -/
def similarityRow (img : List α) (keys : List (List α)) : List α :=
  keys.map (fun k => dotQ img k)

/-- The index ordering the specification demands of the selection at line
385: descending score, with ties among equal scores broken by ascending
index.  Written from the spec's words, to state that requirement; it is not
an ordering `torch.topk` promises. -/
def topkRel (scores : List α) (i j : Nat) : Prop :=
  scores.getD j 0 < scores.getD i 0 ∨
    (scores.getD i 0 = scores.getD j 0 ∧ i ≤ j)

instance topkRelDecidable (scores : List α) : DecidableRel (topkRel scores) :=
  fun i j =>
    inferInstanceAs (Decidable (scores.getD j 0 < scores.getD i 0 ∨
      (scores.getD i 0 = scores.getD j 0 ∧ i ≤ j)))

instance topkRelTotal (scores : List α) : IsTotal Nat (topkRel scores) where
  total i j := by
    rcases lt_trichotomy (scores.getD i 0) (scores.getD j 0) with h | h | h
    · exact Or.inr (Or.inl h)
    · rcases Nat.le_total i j with hle | hle
      · exact Or.inl (Or.inr ⟨h, hle⟩)
      · exact Or.inr (Or.inr ⟨h.symm, hle⟩)
    · exact Or.inl (Or.inl h)

instance topkRelTrans (scores : List α) : IsTrans Nat (topkRel scores) where
  trans a b c hab hbc := by
    rcases hab with hab | ⟨hab, hab'⟩ <;> rcases hbc with hbc | ⟨hbc, hbc'⟩
    · exact Or.inl (hbc.trans hab)
    · exact Or.inl (hbc ▸ hab)
    · exact Or.inl (hab ▸ hbc)
    · exact Or.inr ⟨hab.trans hbc, hab'.trans hbc'⟩

/-- Non-increasing order on scores: the order of the *values* output of
`torch.topk(..., largest=True, sorted=True)`, which PyTorch does document. -/
def descLE (a b : α) : Prop := b ≤ a

instance descLEDecidable : DecidableRel (descLE : α → α → Prop) :=
  fun a b => inferInstanceAs (Decidable (b ≤ a))

instance descLETotal : IsTotal α (descLE : α → α → Prop) :=
  ⟨fun a b => le_total b a⟩

instance descLETrans : IsTrans α (descLE : α → α → Prop) :=
  ⟨fun _ _ _ hab hbc => le_trans hbc hab⟩

instance descLEAntisymm : IsAntisymm α (descLE : α → α → Prop) :=
  ⟨fun _ _ h1 h2 => le_antisymm h2 h1⟩

/-- The *values* returned by `scores.topk(k, largest=True, sorted=True)`:
the `k` largest scores, in non-increasing order.  These are fully determined
by the inputs (unlike the index output). -/
def topkValues (scores : List α) (k : Nat) : List α :=
  (List.insertionSort descLE scores).take k

/-- The documented contract of the *index* output of
`scores.topk(k, largest=True, sorted=True)` at line 385: the indices are
distinct, in range, and reading the scores at the indices in output order
gives exactly the `k` largest scores in non-increasing order.  PyTorch does
not specify which index is reported when equal scores tie (backends differ),
so the index output is a relation on admissible results, not a function of
the inputs. -/
def IsTopkOutput (scores : List α) (k : Nat) (out : List Nat) : Prop :=
  out.Nodup ∧ (∀ i ∈ out, i < scores.length) ∧
  out.map (fun i => scores.getD i 0) = topkValues scores k

instance isTopkOutputDecidable (scores : List α) (k : Nat) (out : List Nat) :
    Decidable (IsTopkOutput scores k out) :=
  inferInstanceAs (Decidable (out.Nodup ∧ (∀ i ∈ out, i < scores.length) ∧
    out.map (fun i => scores.getD i 0) = topkValues scores k))

/-- One admissible deterministic realisation of the index output of
`scores.topk(k, largest=True, sorted=True)`: the first `k` indices of the
stable descending sort of `[0, scores.length)` (ascending index on ties,
the order CPU PyTorch happens to produce).  `topkIndices_isTopkOutput` below
shows it satisfies the documented contract `IsTopkOutput`; properties shared
by all admissible outputs (such as the output length) may be read off it. -/
def topkIndices (scores : List α) (k : Nat) : List Nat :=
  (List.insertionSort (topkRel scores) (List.range scores.length)).take k

/-- Line 385:
`_, indexs = probability.topk(k=min(self.args.text_prompt, probability.shape[1]), dim=1, largest=True)`
for one image row, via the admissible realisation `topkIndices`.
`probability.shape[1]` is the number of entity-key rows.  Downstream uses
(the element count at line 387) depend only on the output length, which is
the same for every admissible output. -/
def selectIndices (textPrompt : Nat) (img : List α) (keys : List (List α)) :
    List Nat :=
  topkIndices (similarityRow img keys) (min textPrompt keys.length)

/-- The selection of line 385 always returns `min textPrompt N` indices. -/
lemma selectIndices_length (textPrompt : Nat) (img : List α)
    (keys : List (List α)) :
    (selectIndices textPrompt img keys).length = min textPrompt keys.length := by
  have hslen : (similarityRow img keys).length = keys.length := by
    simp [similarityRow]
  rw [selectIndices, topkIndices, List.length_take,
    List.length_insertionSort, List.length_range, hslen]
  omega

/-- Reading the scores back at every index of `[0, scores.length)` recovers
the score list. -/
lemma map_getD_range (scores : List α) :
    (List.range scores.length).map (fun i => scores.getD i 0) = scores := by
  apply List.ext_getElem
  · simp
  · intro i h1 h2
    simp only [List.getElem_map, List.getElem_range]
    exact List.getD_eq_getElem scores _ h2

/-- The stable descending sort with ascending-index ties is one admissible
output of `torch.topk`: it satisfies the documented contract. -/
lemma topkIndices_isTopkOutput (scores : List α) (k : Nat) :
    IsTopkOutput scores k (topkIndices scores k) := by
  have hperm := List.perm_insertionSort (topkRel scores)
    (List.range scores.length)
  refine ⟨?_, ?_, ?_⟩
  · exact (List.take_sublist _ _).nodup
      (hperm.nodup_iff.mpr (List.nodup_range _))
  · intro i hi
    have : i ∈ List.range scores.length :=
      hperm.mem_iff.mp (List.mem_of_mem_take hi)
    simpa using this
  · rw [topkIndices, topkValues, List.map_take]
    congr 1
    refine List.eq_of_perm_of_sorted ?_ ?_
      (List.sorted_insertionSort descLE scores)
    · refine ((hperm.map _).trans ?_).trans
        (List.perm_insertionSort descLE scores).symm
      rw [map_getD_range]
    · have hs := List.sorted_insertionSort (topkRel scores)
        (List.range scores.length)
      refine List.pairwise_map.mpr (hs.imp ?_)
      intro i j hij
      rcases hij with h | ⟨h, _⟩
      · exact le_of_lt h
      · exact le_of_eq h.symm

/-- Claim C2 amended: for an entity bank of size `N ≥ 1`, line 385 uses
`K = min(text_prompt, N)`, and *every* index output admissible under
`torch.topk`'s documented contract consists of exactly `K` distinct indices,
each in `[0, N)`, ordered by non-increasing similarity score.  The order
among entities with equal scores is left open by the contract, so the
ascending-index tie-break is not part of what the program guarantees
(see the counterexample). -/
theorem select_topk_contract (textPrompt : Nat) (img : List α)
    (keys : List (List α)) (hN : 1 ≤ keys.length) (out : List Nat)
    (hout : IsTopkOutput (similarityRow img keys)
      (min textPrompt keys.length) out) :
    out.length = min textPrompt keys.length ∧
    out.Nodup ∧
    (∀ i ∈ out, i < keys.length) ∧
    List.Sorted (fun i j => (similarityRow img keys).getD j 0 ≤
      (similarityRow img keys).getD i 0) out := by
  obtain ⟨hnd, hrange, hmap⟩ := hout
  have hslen : (similarityRow img keys).length = keys.length := by
    simp [similarityRow]
  refine ⟨?_, hnd, ?_, ?_⟩
  · have h1 : (out.map
        (fun i => (similarityRow img keys).getD i 0)).length =
        (topkValues (similarityRow img keys)
          (min textPrompt keys.length)).length := by
      rw [hmap]
    rw [List.length_map] at h1
    rw [h1, topkValues, List.length_take, List.length_insertionSort, hslen]
    omega
  · intro i hi
    rw [← hslen]
    exact hrange i hi
  · have hs : List.Sorted descLE
        (out.map (fun i => (similarityRow img keys).getD i 0)) := by
      rw [hmap]
      exact List.Pairwise.sublist (List.take_sublist _ _)
        (List.sorted_insertionSort descLE _)
    exact List.pairwise_map.mp hs

/-- Witness for the amended C2 at a concrete admissible output: scores
`[1, 0, 1]` (a tie between indices 0 and 2), `K = 2`, and the admissible
output `[2, 0]`, whose tie order is descending-index. -/
theorem select_topk_contract_witness :
    [2, 0].length = min 2 [[(1 : ℤ), 0], [0, 1], [1, 0]].length ∧
    ([2, 0] : List Nat).Nodup ∧
    (∀ i ∈ ([2, 0] : List Nat),
      i < [[(1 : ℤ), 0], [0, 1], [1, 0]].length) ∧
    List.Sorted (fun i j =>
      (similarityRow [(1 : ℤ), 0] [[1, 0], [0, 1], [1, 0]]).getD j 0 ≤
      (similarityRow [(1 : ℤ), 0] [[1, 0], [0, 1], [1, 0]]).getD i 0)
      [2, 0] :=
  select_topk_contract 2 [(1 : ℤ), 0] [[1, 0], [0, 1], [1, 0]] (by decide)
    [2, 0] (by decide)

/-- Claim C2's deterministic ascending-index tie-break is refuted: for the
tied score row `[1, 0, 1]` (image `[1, 0]` against the bank
`[[1,0],[0,1],[1,0]]`, `K = 2`), the output `[2, 0]` satisfies everything
`torch.topk` documents, yet is not ordered with ties broken by ascending
index — so the program does not guarantee the claimed tie-break. -/
theorem select_topk_tiebreak_counterexample :
    IsTopkOutput (similarityRow [(1 : ℤ), 0] [[1, 0], [0, 1], [1, 0]])
      (min 2 [[(1 : ℤ), 0], [0, 1], [1, 0]].length) [2, 0] ∧
    ¬ List.Sorted
      (topkRel (similarityRow [(1 : ℤ), 0] [[1, 0], [0, 1], [1, 0]]))
      [2, 0] := by decide

/-! ## Tensor `view` (reshape on contiguous data) -/

/-- Auxiliary for `chunkList`: `fuel` bounds the recursion depth; any
`fuel ≥ l.length` yields the full chunking when `0 < k`. -/
def chunkListAux (k : Nat) : Nat → List β → List (List β)
  | _, [] => []
  | 0, _ :: _ => []
  | fuel + 1, x :: xs => (x :: xs).take k :: chunkListAux k fuel ((x :: xs).drop k)

/-- Splits contiguous tensor data into consecutive blocks of `k` elements:
the regrouping a `view` performs on row-major data. -/
def chunkList (k : Nat) (l : List β) : List (List β) :=
  if k = 0 then [] else chunkListAux k l.length l

lemma chunkListAux_nil (k fuel : Nat) : chunkListAux k fuel ([] : List β) = [] := by
  cases fuel <;> rfl

lemma chunkListAux_congr (k : Nat) (hk : 0 < k) :
    ∀ (fuel₁ fuel₂ : Nat) (l : List β), l.length ≤ fuel₁ → l.length ≤ fuel₂ →
      chunkListAux k fuel₁ l = chunkListAux k fuel₂ l := by
  intro fuel₁
  induction fuel₁ with
  | zero =>
    intro fuel₂ l h1 _
    have : l = [] := List.length_eq_zero.mp (Nat.le_zero.mp h1)
    subst this
    rw [chunkListAux_nil, chunkListAux_nil]
  | succ f ih =>
    intro fuel₂ l h1 h2
    rcases l with _ | ⟨x, xs⟩
    · rw [chunkListAux_nil, chunkListAux_nil]
    · rcases fuel₂ with _ | f₂
      · simp at h2
      · show (x :: xs).take k :: chunkListAux k f ((x :: xs).drop k) =
          (x :: xs).take k :: chunkListAux k f₂ ((x :: xs).drop k)
        have hd : ((x :: xs).drop k).length ≤ f := by
          simp only [List.length_drop, List.length_cons] at *
          omega
        have hd₂ : ((x :: xs).drop k).length ≤ f₂ := by
          simp only [List.length_drop, List.length_cons] at *
          omega
        rw [ih _ _ hd hd₂]

lemma chunkList_cons_eq (k : Nat) (hk : 0 < k) (l : List β) (hl : l ≠ []) :
    chunkList k l = l.take k :: chunkList k (l.drop k) := by
  rcases l with _ | ⟨x, xs⟩
  · cases hl rfl
  · rw [chunkList, if_neg hk.ne', chunkList, if_neg hk.ne']
    show chunkListAux k (xs.length + 1) (x :: xs) = _
    rw [chunkListAux]
    congr 1
    refine chunkListAux_congr k hk xs.length ((x :: xs).drop k).length _ ?_ le_rfl
    simp only [List.length_drop, List.length_cons]
    omega

/-- Chunking inverts flattening on uniform blocks. -/
lemma chunkList_flatten (k : Nat) (hk : 0 < k) (L : List (List β))
    (h : ∀ x ∈ L, x.length = k) : chunkList k L.flatten = L := by
  induction L with
  | nil => rw [List.flatten_nil, chunkList, if_neg hk.ne', chunkListAux_nil]
  | cons x L ih =>
    have hx : x.length = k := h x (List.mem_cons_self x L)
    have hxne : x ≠ [] := by
      intro he
      rw [he] at hx
      simp only [List.length_nil] at hx
      omega
    rw [List.flatten_cons,
      chunkList_cons_eq k hk _ (by simp [List.append_eq_nil, hxne]),
      List.take_left' hx, List.drop_left' hx,
      ih (fun y hy => h y (List.mem_cons_of_mem x hy))]

/-- Length of a flattening of uniformly sized blocks. -/
lemma flatten_length_uniform (L : List (List β)) (n : Nat)
    (h : ∀ x ∈ L, x.length = n) : L.flatten.length = L.length * n := by
  induction L with
  | nil => simp
  | cons x L ih =>
    rw [List.flatten_cons, List.length_append, List.length_cons,
      h x (List.mem_cons_self x L),
      ih (fun y hy => h y (List.mem_cons_of_mem x hy))]
    ring

/-- `tensor.view(b, r, d)` on contiguous row-major data `flat` (the explicit
three-dimensional `view` of `PromptLearner.forward`, line 211): succeeds
exactly when the element count matches, regrouping into `b` rows of `r`
vectors of length `d`. -/
def view3 (flat : List α) (b r d : Nat) : Option (List (List (List α))) :=
  if flat.length = b * r * d then some (chunkList r (chunkList d flat)) else none

/-- Line 395: `text_features.view(image_features.shape[0], self.n_class, -1)`
on contiguous row-major data.  `view` with an inferred `-1` dimension succeeds
exactly when `batch * n_class` is positive and divides the element count; the
source performs no other shape check, and no `ShapeMismatchError` exists
anywhere in it. -/
def viewClasses (flat : List α) (batch nClass : Nat) :
    Option (List (List (List α))) :=
  if 0 < batch * nClass ∧ batch * nClass ∣ flat.length then
    some (chunkList nClass (chunkList (flat.length / (batch * nClass)) flat))
  else none

/-- Claim C1 is refuted at a concrete input: text features with per-image
embedding count 2 (≠ class count 4, batch 1, embedding width 8) are reshaped
by line 395 without any error, because `view(1, 4, -1)` only requires
divisibility of the element count. -/
theorem forward_reshape_mismatch_counterexample :
    (List.replicate 16 (0 : ℤ)).length = 1 * 2 * 8 ∧ (2 : Nat) ≠ 4 ∧
    viewClasses (List.replicate 16 (0 : ℤ)) 1 4 ≠ none := by decide

/-- Claim C1 amended: the reshape into `[batch, n_class, -1]` at line 395 is
not guarded by a per-image-count check.  It succeeds — silently producing
logits — whenever `batch` and `n_class` are positive and `n_class` divides
the per-image element count `M * D`, with no requirement that the per-image
embedding count `M` equal `n_class`; no `ShapeMismatchError` is raised. -/
theorem forward_reshape_silent (flat : List α) (batch nClass M D : Nat)
    (hb : 0 < batch) (hc : 0 < nClass) (hlen : flat.length = batch * (M * D))
    (hdvd : nClass ∣ M * D) :
    (viewClasses flat batch nClass).isSome = true := by
  have hcond : 0 < batch * nClass ∧ batch * nClass ∣ flat.length :=
    ⟨Nat.mul_pos hb hc, by rw [hlen]; exact mul_dvd_mul_left batch hdvd⟩
  rw [viewClasses, if_pos hcond]
  rfl

/-- Witness for the amended C1 at the counterexample's input. -/
theorem forward_reshape_silent_witness :
    (viewClasses (List.replicate 16 (0 : ℤ)) 1 4).isSome = true :=
  forward_reshape_silent (List.replicate 16 (0 : ℤ)) 1 4 2 8
    (by decide) (by decide) (by decide) (by decide)

/-! ## Soft-prompt bank (`CLIP.__init__` line 363) and assembler
(`PromptLearner.forward`, lines 207-215) -/

/-- Line 363: `entity_prompt = torch.empty(len(entities), 12, ctx_dim, dtype=clip_model.dtype)`
inside `CLIP.__init__(..., n_ctx=12)`: the shape of the allocated learnable
soft-prompt bank.  The constructor's `n_ctx` parameter is not consulted here;
the middle dimension is the literal `12`. -/
def entityPromptShape (nEntities nCtx ctxDim : Nat) : Nat × Nat × Nat :=
  (nEntities, 12, ctxDim)

/-- `PromptLearner.forward` (lines 207-215):
`ctx = self.entity_prompts[indexs].view(batch, self.n_ctx * self.args.text_prompt, self.ctx_dim)`,
and `prompt = ctx` is returned unchanged (the `prompt_pos` repositioning is
documented but unimplemented).  `entity_prompts[indexs]` is a tensor gather
producing one prompt (a list of context vectors) per selected index per
image; `view` regroups the contiguous data into
`[batch, n_ctx * text_prompt, ctx_dim]`. -/
def promptLearnerForward (entityPrompts : List (List (List α)))
    (nCtx textPrompt ctxDim : Nat) (indexs : List (List Nat)) :
    Option (List (List (List α))) :=
  let gathered := indexs.map (fun row => row.map (fun i => entityPrompts.getD i []))
  view3 gathered.flatten.flatten.flatten indexs.length (nCtx * textPrompt) ctxDim

/-- Claim C3 is refuted at a concrete input: constructing the model with
`n_ctx = 3` still allocates a soft-prompt bank with middle dimension 12,
not `n_ctx`. -/
theorem prompt_bank_shape_counterexample :
    entityPromptShape 4 3 8 ≠ (4, 3, 8) := by decide

/-- Claim C3 amended: the soft-prompt bank has shape
`[N_entity, 12, ctx_dim]` — the literal 12, which coincides with the
constructor's `n_ctx` only at its default value — and, when `n_ctx = 12` and
each image's selection holds exactly `text_prompt` indices into the bank, the
assembler gathers the prompts at the selected indices and reshapes them into
one flattened per-image sequence (the concatenation of the selected prompts,
of length `text_prompt × 12` context vectors). -/
theorem prompt_bank_assembler_amended (entityPrompts : List (List (List α)))
    (textPrompt ctxDim nEntities nCtx : Nat) (indexs : List (List Nat))
    (hshape : ∀ p ∈ entityPrompts, p.length = 12 ∧ ∀ v ∈ p, v.length = ctxDim)
    (hidx : ∀ row ∈ indexs, row.length = textPrompt ∧
      ∀ i ∈ row, i < entityPrompts.length)
    (hD : 0 < ctxDim) (htp : 0 < textPrompt) :
    entityPromptShape nEntities nCtx ctxDim = (nEntities, 12, ctxDim) ∧
    promptLearnerForward entityPrompts 12 textPrompt ctxDim indexs =
      some (indexs.map (fun row =>
        (row.map (fun i => entityPrompts.getD i [])).flatten)) := by
  refine ⟨rfl, ?_⟩
  have hgmem : ∀ p ∈ (indexs.map (fun row =>
      row.map (fun i => entityPrompts.getD i []))).flatten, p ∈ entityPrompts := by
    intro p hp
    rcases List.mem_flatten.mp hp with ⟨img, himg, hpimg⟩
    rcases List.mem_map.mp himg with ⟨row, hrow, hrow'⟩
    rcases List.mem_map.mp (hrow' ▸ hpimg) with ⟨i, hi, rfl⟩
    have hilt : i < entityPrompts.length := (hidx row hrow).2 i hi
    rw [List.getD_eq_getElem _ _ hilt]
    exact List.getElem_mem _
  set g := indexs.map (fun row => row.map (fun i => entityPrompts.getD i []))
    with hg
  have himglen : ∀ img ∈ g, img.length = textPrompt := by
    intro img himg
    rcases List.mem_map.mp himg with ⟨row, hrow, hrow'⟩
    rw [← hrow', List.length_map]
    exact (hidx row hrow).1
  have hprompt12 : ∀ p ∈ g.flatten, p.length = 12 :=
    fun p hp => (hshape p (hgmem p hp)).1
  have hvec : ∀ v ∈ g.flatten.flatten, v.length = ctxDim := by
    intro v hv
    rcases List.mem_flatten.mp hv with ⟨p, hp, hvp⟩
    exact (hshape p (hgmem p hp)).2 v hvp
  have hlen1 : g.length = indexs.length := List.length_map _ _
  have hlen2 : g.flatten.length = indexs.length * textPrompt := by
    rw [flatten_length_uniform g textPrompt himglen, hlen1]
  have hlen3 : g.flatten.flatten.length = indexs.length * textPrompt * 12 := by
    rw [flatten_length_uniform _ 12 hprompt12, hlen2]
  have hcond : g.flatten.flatten.flatten.length =
      indexs.length * (12 * textPrompt) * ctxDim := by
    rw [flatten_length_uniform _ ctxDim hvec, hlen3]
    ring
  show view3 g.flatten.flatten.flatten indexs.length (12 * textPrompt) ctxDim
    = _
  rw [view3, if_pos hcond]
  congr 1
  rw [chunkList_flatten ctxDim hD _ hvec, List.flatten_flatten]
  have hy : ∀ y ∈ g.map List.flatten, y.length = 12 * textPrompt := by
    intro y hyy
    rcases List.mem_map.mp hyy with ⟨img, himg, hyy'⟩
    rw [← hyy',
      flatten_length_uniform img 12
        (fun p hp => hprompt12 p (List.mem_flatten.mpr ⟨img, himg, hp⟩)),
      himglen img himg]
    ring
  rw [chunkList_flatten (12 * textPrompt) (by omega) _ hy, hg, List.map_map]
  rfl

/-- Witness for the amended C3 at a concrete two-entity bank
(`ctx_dim = 1`, `text_prompt = 1`, one image selecting entity 0). -/
theorem prompt_bank_assembler_amended_witness :
    entityPromptShape 2 5 1 = (2, 12, 1) ∧
    promptLearnerForward [List.replicate 12 [(3 : ℤ)], List.replicate 12 [4]]
      12 1 1 [[0]] =
      some ([[0]].map (fun row => (row.map (fun i =>
        [List.replicate 12 [(3 : ℤ)], List.replicate 12 [4]].getD i
          [])).flatten)) :=
  prompt_bank_assembler_amended
    [List.replicate 12 [(3 : ℤ)], List.replicate 12 [4]] 1 1 2 5 [[0]]
    (by decide) (by decide) (by decide) (by decide)

/-! ## `CLIP.forward` line 387: the chosen-keys lookup -/

/-- Python-level runtime errors of the embedded `CLIP` code paths:
`typeErrorListIndices` is `TypeError: list indices must be integers or
slices, not Tensor`; `attributeErrorModule` is
`AttributeError: 'TextEncoder' object has no attribute 'module'`. -/
inductive PyError where
  | typeErrorListIndices
  | attributeErrorModule
deriving Repr, DecidableEq

/-- Line 387: `chosen_keys = self.entity_keys[indexs]`.  `self.entity_keys`
is a Python *list* of tensors (the list comprehension of lines 349-351,
stored at line 358), and `indexs` is an integer tensor of shape `[batch, K]`.
Indexing a Python list with a tensor invokes the tensor's `__index__`, which
converts only a one-element tensor to a scalar; any other shape raises
`TypeError`. -/
def listIndexByTensor (xs : List (List α)) (idx : List (List Nat)) :
    Except PyError (List α) :=
  match idx.flatten with
  | [i] => .ok (xs.getD i [])
  | _ => .error .typeErrorListIndices

/-- `CLIP.forward` steps 3.1-3.3 (lines 382-387): per-image similarity row
(line 383), top-K index selection with `K = min(text_prompt, N)` (line 385),
and the chosen-keys lookup (line 387).  `imageFeats` stands for the
normalized image features of line 379 and `entityKeys` for the rows of the
normalized entity-key bank. -/
def forwardChosenKeys (textPrompt : Nat) (entityKeys : List (List α))
    (imageFeats : List (List α)) :
    Except PyError (List (List Nat) × List α) :=
  let indexs := imageFeats.map (fun img => selectIndices textPrompt img entityKeys)
  match listIndexByTensor entityKeys indexs with
  | .error e => .error e
  | .ok chosen => .ok (indexs, chosen)

/-- Claim C4 fails on the code: because `self.entity_keys` is a Python list
rather than a tensor, the lookup at line 387 raises `TypeError` whenever the
index tensor `[batch, K]` holds more than one element (in particular for
every batch once `K ≥ 2`, contradicting the comment `chosen:[32,5,768]` at
line 386); `forward` therefore never returns the gathered key vectors. -/
theorem forward_chosen_keys_type_error (textPrompt : Nat)
    (entityKeys : List (List α)) (imageFeats : List (List α))
    (h : imageFeats.length * min textPrompt entityKeys.length ≠ 1) :
    forwardChosenKeys textPrompt entityKeys imageFeats =
      .error .typeErrorListIndices := by
  have hflatlen :
      ((imageFeats.map
        (fun img => selectIndices textPrompt img entityKeys)).flatten).length =
      imageFeats.length * min textPrompt entityKeys.length := by
    rw [flatten_length_uniform _ (min textPrompt entityKeys.length) ?uniform,
      List.length_map]
    case uniform =>
      intro y hy
      rcases List.mem_map.mp hy with ⟨img, _, hyimg⟩
      rw [← hyimg]
      exact selectIndices_length textPrompt img entityKeys
  have herr : listIndexByTensor entityKeys
      (imageFeats.map (fun img => selectIndices textPrompt img entityKeys)) =
      .error .typeErrorListIndices := by
    rcases hf : (imageFeats.map
        (fun img => selectIndices textPrompt img entityKeys)).flatten with
      _ | ⟨i, _ | ⟨j, rest⟩⟩
    · simp [listIndexByTensor, hf]
    · rw [hf] at hflatlen
      simp only [List.length_singleton] at hflatlen
      exact absurd hflatlen.symm h
    · simp [listIndexByTensor, hf]
  simp [forwardChosenKeys, herr]

/-- Witness for C4's failure theorem at the concrete failing input: one
image, two entity keys, `text_prompt = 2`. -/
theorem forward_chosen_keys_type_error_witness :
    forwardChosenKeys 2 [[(1 : ℤ), 0], [0, 1]] [[1, 0]] =
      .error .typeErrorListIndices :=
  forward_chosen_keys_type_error 2 [[(1 : ℤ), 0], [0, 1]] [[1, 0]]
    (by decide)

/-! ## Classification head (`CLIP.forward`, lines 393-399) -/

/-- Line 397: `image_features = image_features.unsqueeze(1)` — inserts a
middle dimension of size 1. -/
def unsqueeze1 (img : List (List α)) : List (List (List α)) :=
  img.map (fun v => [v])

/-- The broadcast elementwise product `image_features * text_features` at
line 399, for `image_features : [batch, 1, D]`: the size-1 middle dimension
broadcasts its single row over the class dimension of
`text_features : [batch, n_class, D]`. -/
def broadcastMulImage (imgU : List (List (List α)))
    (txt : List (List (List α))) : List (List (List α)) :=
  List.zipWith
    (fun iRow tRow => tRow.map (fun t => List.zipWith (· * ·) (iRow.headD []) t))
    imgU txt

/-- `.sum(-1)` at line 399: sum over the embedding dimension. -/
def sumLastDim (x : List (List (List α))) : List (List α) :=
  x.map (fun r => r.map List.sum)

/-- Lines 397-399: `logit_scale = self.logit_scale.exp()` and
`logits = logit_scale * (image_features * text_features).sum(-1)`.
`s` stands for the value of the exponentiated learned scale
`self.logit_scale.exp()`; `img` for the L2-normalized image features of line
379; `txt` for the per-class L2-normalized text features after the reshape
of lines 394-395. -/
def logitsOp (s : α) (img : List (List α)) (txt : List (List (List α))) :
    List (List α) :=
  (sumLastDim (broadcastMulImage (unsqueeze1 img) txt)).map
    (fun r => r.map (fun v => s * v))

/-- Claim C5: every logit equals the exponentiated learned scale times the
sum over the embedding dimension of the elementwise product of the
(unsqueezed) normalized image embedding with the class's normalized text
embedding — scaled cosine similarity of pre-normalized vectors. -/
theorem logits_scaled_cosine (s : α) (img : List (List α))
    (txt : List (List (List α))) (b c : Nat)
    (hbt : txt.length = img.length) (hb : b < img.length)
    (hc : c < (txt.getD b []).length) :
    ((logitsOp s img txt).getD b []).getD c 0 =
      s * dotQ (img.getD b []) ((txt.getD b []).getD c []) := by
  have hbt' : b < txt.length := by omega
  have hblog : b < (logitsOp s img txt).length := by
    simp only [logitsOp, sumLastDim, broadcastMulImage, unsqueeze1,
      List.length_map, List.length_zipWith]
    omega
  rw [List.getD_eq_getElem txt _ hbt'] at hc
  rw [List.getD_eq_getElem _ _ hblog, List.getD_eq_getElem txt _ hbt',
    List.getD_eq_getElem img _ hb, List.getD_eq_getElem _ _ hc]
  simp only [logitsOp, sumLastDim, broadcastMulImage, unsqueeze1,
    List.getElem_map, List.getElem_zipWith]
  rw [List.getD_eq_getElem _ _ (by simpa using hc)]
  simp [dotQ]

/-- Witness for C5 at a concrete input (one image, two classes, `D = 2`). -/
theorem logits_scaled_cosine_witness :
    ((logitsOp (2 : ℤ) [[1, 2]] [[[3, 4], [5, 6]]]).getD 0 []).getD 1 0 =
      2 * dotQ ([[(1 : ℤ), 2]].getD 0 [])
        (([[[(3 : ℤ), 4], [5, 6]]].getD 0 []).getD 1 []) :=
  logits_scaled_cosine 2 [[1, 2]] [[[3, 4], [5, 6]]] 0 1
    (by decide) (by decide) (by decide)

/-! ## `CLIP.__init__` lines 342-355: DataParallel wrapping and `.module` -/

/-- The handle held in `self.text_encoder` after lines 342-343: the plain
`TextEncoder`, or the `nn.DataParallel` wrapper installed only when
`torch.cuda.device_count() > 1`. -/
inductive TextEncoderHandle where
  | plain
  | dataParallel
deriving Repr, DecidableEq

/-- Lines 342-343:
`if torch.cuda.device_count() > 1: self.text_encoder = nn.DataParallel(self.text_encoder)`. -/
def wrapTextEncoder (deviceCount : Nat) : TextEncoderHandle :=
  if 1 < deviceCount then .dataParallel else .plain

/-- The attribute access `self.text_encoder.module` performed at lines 350
and 354: `nn.DataParallel` exposes the wrapped module as `.module`; the
plain `TextEncoder` has no such attribute, so Python raises
`AttributeError`. -/
def moduleAttr : TextEncoderHandle → Except PyError Unit
  | .dataParallel => .ok ()
  | .plain => .error .attributeErrorModule

/-- Lines 346-355 of `CLIP.__init__`: building the entity-key and class-name
embedding banks via `self.text_encoder.module.encode_text(...)` (once for the
entities at line 350, once for the class names at line 354).  `encodeText`
stands for the frozen text encoder applied to one tokenized phrase; the
subsequent per-row division by the L2 norm (lines 351, 355) is the
`normalizeBy` step treated separately. -/
def clipInitBanks (deviceCount : Nat) (encodeText : List Nat → List α)
    (tokenizedKeys tokenizedNames : List (List Nat)) :
    Except PyError (List (List α) × List (List α)) :=
  match moduleAttr (wrapTextEncoder deviceCount) with
  | .error e => .error e
  | .ok _ =>
    match moduleAttr (wrapTextEncoder deviceCount) with
    | .error e => .error e
    | .ok _ => .ok (tokenizedKeys.map encodeText, tokenizedNames.map encodeText)

/-- Claim C10: `CLIP.__init__` reads the text encoder through `.module`
(lines 350, 354), but the `DataParallel` wrapper providing that attribute is
installed only when more than one compute device is present (lines 342-343).
With zero or one devices, construction fails with an `AttributeError`
instead of returning a model; with more than one device the bank
construction proceeds. -/
theorem clip_init_module_attribute (deviceCount : Nat)
    (encodeText : List Nat → List α)
    (tokenizedKeys tokenizedNames : List (List Nat)) :
    (deviceCount ≤ 1 →
      clipInitBanks deviceCount encodeText tokenizedKeys tokenizedNames =
        .error .attributeErrorModule) ∧
    (1 < deviceCount →
      clipInitBanks deviceCount encodeText tokenizedKeys tokenizedNames =
        .ok (tokenizedKeys.map encodeText, tokenizedNames.map encodeText)) := by
  constructor
  · intro h
    have hlt : ¬ 1 < deviceCount := by omega
    simp [clipInitBanks, wrapTextEncoder, moduleAttr, hlt]
  · intro h
    simp [clipInitBanks, wrapTextEncoder, moduleAttr, h]

/-- Witness for C10 at one and two devices. -/
theorem clip_init_module_attribute_witness :
    (clipInitBanks 1 (fun l => l.map (fun n => (n : ℤ))) [[1]] [[2]] =
      .error .attributeErrorModule) ∧
    (clipInitBanks 2 (fun l => l.map (fun n => (n : ℤ))) [[1]] [[2]] =
      .ok ([[1]].map (fun l => l.map (fun n => (n : ℤ))),
        [[2]].map (fun l => l.map (fun n => (n : ℤ))))) :=
  ⟨(clip_init_module_attribute 1 (fun l => l.map (fun n => (n : ℤ)))
      [[1]] [[2]]).1 (by decide),
   (clip_init_module_attribute 2 (fun l => l.map (fun n => (n : ℤ)))
      [[1]] [[2]]).2 (by decide)⟩

end Tensors

/-! ## L2 normalization (`t / t.norm(dim=-1, keepdim=True)`,
lines 351, 355, 379, 394) -/

section Normalization

variable {α : Type} [LinearOrderedField α]

/-- Sum of squares of a row's entries: the square of its L2 norm
(`t.norm(dim=-1)` squared). -/
def sumSq (v : List α) : α := (v.map (fun x => x * x)).sum

/-- The row normalization `t / t.norm(dim=-1, keepdim=True)` applied to every
embedding used in a similarity computation — the entity-key and class-name
banks at lines 351 and 355, the image features at line 379, and the text
features at line 394: every entry is divided by the row's L2 norm `n`, the
nonnegative scalar with `n ^ 2 = sumSq v`. -/
def normalizeBy (v : List α) (n : α) : List α := v.map (fun x => x / n)

lemma sumSq_nonneg (v : List α) : 0 ≤ sumSq v := by
  induction v with
  | nil => simp [sumSq]
  | cons x xs ih =>
    rw [sumSq, List.map_cons, List.sum_cons]
    exact add_nonneg (mul_self_nonneg x) ih

lemma sumSq_pos (v : List α) (hv : ∃ x ∈ v, x ≠ 0) : 0 < sumSq v := by
  induction v with
  | nil => simp at hv
  | cons x xs ih =>
    rw [sumSq, List.map_cons, List.sum_cons]
    rcases hv with ⟨y, hy, hyne⟩
    rcases List.mem_cons.mp hy with rfl | hyxs
    · exact add_pos_of_pos_of_nonneg (mul_self_pos.mpr hyne) (sumSq_nonneg xs)
    · exact add_pos_of_nonneg_of_pos (mul_self_nonneg x) (ih ⟨y, hyxs, hyne⟩)

lemma sumSq_normalizeBy (v : List α) (n : α) :
    sumSq (normalizeBy v n) = sumSq v / n ^ 2 := by
  induction v with
  | nil => simp [sumSq, normalizeBy]
  | cons x xs ih =>
    rw [normalizeBy, List.map_cons, sumSq, List.map_cons, List.sum_cons]
    rw [normalizeBy] at ih
    rw [sumSq] at ih ⊢
    rw [ih, div_mul_div_comm, List.map_cons, List.sum_cons, add_div, sumSq]
    ring

/-- Claim C9: a row divided by its own L2 norm has L2 norm 1: the sum of
squares of the normalized row is 1, and 1 is the unique nonnegative scalar
whose square equals it.  The hypothesis that some entry of `v` is nonzero is
what the source's epsilon-free division tacitly assumes. -/
theorem normalized_rows_unit_norm (v : List α) (n : α) (hnn : 0 ≤ n)
    (hn : n ^ 2 = sumSq v) (hv : ∃ x ∈ v, x ≠ 0) :
    sumSq (normalizeBy v n) = 1 ∧
    ∀ m : α, 0 ≤ m → m ^ 2 = sumSq (normalizeBy v n) → m = 1 := by
  have hpos : 0 < sumSq v := sumSq_pos v hv
  have hne : sumSq v ≠ 0 := ne_of_gt hpos
  have h1 : sumSq (normalizeBy v n) = 1 := by
    rw [sumSq_normalizeBy, hn, div_self hne]
  refine ⟨h1, ?_⟩
  intro m hm hm2
  rw [h1] at hm2
  have hfac : (m - 1) * (m + 1) = 0 := by ring_nf; linarith [hm2]
  rcases mul_eq_zero.mp hfac with hzero | hzero
  · linarith
  · linarith

/-- Witness for C9 at the concrete row `[3, 4]` with norm 5. -/
theorem normalized_rows_unit_norm_witness :
    sumSq (normalizeBy [(3 : ℚ), 4] 5) = 1 ∧
    ∀ m : ℚ, 0 ≤ m → m ^ 2 = sumSq (normalizeBy [(3 : ℚ), 4] 5) → m = 1 :=
  normalized_rows_unit_norm [(3 : ℚ), 4] 5 (by norm_num)
    (by norm_num [sumSq]) (by norm_num)

end Normalization

end ClipSpec
